import Mathlib

/-!
Shallow embedding of the extraction orchestration engine of
`src/pipeline/extraction.py` (Real-Time Environmental Quality Monitoring
Dashboard Pipeline).

Modelling conventions:
* Calendar months at month granularity are absolute month indices
  `am : Nat` with `am = year * 12 + (month - 1)`; `am / 12` recovers the
  year and `am % 12 + 1` the month number (1..12).  Stepping a
  `datetime` by `relativedelta(months=1)` is `am + 1`.
* Python's `str(n)` on a natural number is `charsOfNat`; `.zfill(2)` on
  a month is `pad2chars`.  The DuckDB varchar comparison used by the
  completion row-count query (`year || '-' || month >= ? AND ... <= ?`)
  is lexicographic on code points, modelled by `lexLt` / `sqlLe` over
  `List Char`.
* The storage boundary (`execute_query` on a compiled extraction query)
  is an oracle `Env.outcome : String → LoadOutcome` keyed by the
  partition locator: success inserts the partition's rows, `notFound`
  models the duckdb `IOException`, `hardError` any other exception.
* Ledger writes (`log_extraction_start/complete/failed`) and deletes are
  recorded as an `Event` trace so theorems can speak about what was
  written to the ledger and in what order.
* `datetime.now()` is `NowClock`: the current absolute month plus the
  time elapsed since midnight of the current day (`timeOfDay`,
  microsecond resolution; the day-of-month component is irrelevant
  because line 191 of the source forces `day=1` on both sides of the
  comparison while keeping the time of day).
-/

/-- Decimal digits of a natural number, most significant first, with
structural fuel so that terms reduce by `rfl`/`decide`.  Models Python
`str(n)` for `n : Nat`. -/
def charsOfNatGo : Nat → Nat → List Char
  | 0, _ => []
  | fuel + 1, n =>
    if n < 10 then [Nat.digitChar n]
    else charsOfNatGo fuel (n / 10) ++ [Nat.digitChar (n % 10)]

/-- Python `str(n)` as a list of characters. -/
def charsOfNat (n : Nat) : List Char := charsOfNatGo (n + 1) n

/-- Python `str(m).zfill(2)`: left-pad the decimal rendering with `'0'`
to width two. -/
def pad2chars (m : Nat) : List Char :=
  if m < 10 then '0' :: charsOfNat m else charsOfNat m

/-- Lexicographic strict order on character lists; models the DuckDB
varchar `<` used (via `>=`/`<=`) by the row-count query. -/
def lexLt : List Char → List Char → Bool
  | [], [] => false
  | [], _ :: _ => true
  | _ :: _, [] => false
  | a :: as, b :: bs => if a < b then true else if b < a then false else lexLt as bs

/-- The SQL `a <= b` varchar comparison: `¬ (b < a)`. -/
def sqlLe (a b : List Char) : Bool := !(lexLt b a)

/-- One row of `raw.air_quality` as far as the orchestration logic can
observe it: the `year` integer column and the `month` varchar column. -/
structure Row where
  year : Nat
  month : String
deriving DecidableEq

/-- The `year || '-' || month` expression of the row-count query. -/
def rowKey (r : Row) : List Char := charsOfNat r.year ++ '-' :: r.month.data

/-- The `"YYYY-MM"` rendering of an absolute month, as used for the
`start_date` / `end_date` bound parameters of the row-count query. -/
def fmtChars (am : Nat) : List Char :=
  charsOfNat (am / 12) ++ '-' :: pad2chars (am % 12 + 1)

/-- Observable ledger / logging / storage actions of one run, in
program order. -/
inductive Event where
  | warn (msg : String)
  | jobOpened (id : Nat) (startAm endAm : Nat)
  | jobCompleted (id : Nat) (records : Nat)
  | jobFailed (id : Nat) (msg : String)
  | deleteMonth (am : Nat)
  | loadAttempt (path : String)
deriving DecidableEq

/-- Outcome of submitting one compiled extraction query to the storage
engine (`execute_query` at line 227 of the source). -/
inductive LoadOutcome where
  | success (rows : List Row)
  | notFound (msg : String)
  | hardError (msg : String)
deriving DecidableEq

/-- Result of the ledger read `SELECT end_date FROM
raw.last_successful_extraction` (line 37): either a fetched optional
end month or a raised exception. -/
inductive LedgerReadResult where
  | ok (lastEnd : Option Nat)
  | err (msg : String)

/-- `datetime.now()` as far as the source inspects it: the current
absolute month and the time elapsed since midnight (the source's
`.replace(day=1)` keeps hours/minutes/seconds/microseconds). -/
structure NowClock where
  month : Nat
  timeOfDay : Nat

/-- External world of one run. -/
structure Env where
  nextId : Nat
  outcome : String → LoadOutcome
  ledgerRead : LedgerReadResult
  now : NowClock
  initialRows : List Row

/-- Parsed CLI arguments relevant to the driver, with the contents of
the locations registry file already read (`read_location_ids`).  Dates
are absolute months of well-formed `"YYYY-MM"` strings; `none` models
an absent argument. -/
structure Args where
  incremental : Bool
  start_date : Option Nat
  end_date : Option Nat
  locations : List String

/-- `get_last_extraction_date` (lines 34-47): returns the fetched end
month, or `none` with a logged warning when the ledger read raises. -/
def get_last_extraction_date (r : LedgerReadResult) : Option Nat × List Event :=
  match r with
  | .ok d => (d, [])
  | .err m => (none, [.warn ("Could not retrieve last extraction date: " ++ m)])

/-- `determine_date_range` (lines 50-78).  In incremental mode the
start is the month after the last successful extraction, else the
current month minus three; the end is the current month.  In
non-incremental mode the function raises. -/
def determine_date_range (r : LedgerReadResult) (now : NowClock) (incremental : Bool) :
    Except String ((Nat × Nat) × List Event) :=
  if incremental then
    let last := get_last_extraction_date r
    let start_date : Nat :=
      match last.1 with
      | some d => d + 1
      | none => now.month - 3
    Except.ok ((start_date, now.month), last.2)
  else
    Except.error "Date range must be determined before calling this function in non-incremental mode"

/-- The up-to-date test of lines 188-195: `strptime(last_end)` (midnight
of day 1) is `>=` `datetime.now().replace(day=1)` (day 1 of the current
month at the *current time of day*).  Lexicographic on
(month, time-of-day). -/
def alreadyUpToDate (lastEnd : Option Nat) (now : NowClock) : Bool :=
  match lastEnd with
  | some d => decide (now.month < d) || (decide (d = now.month) && decide (now.timeOfDay = 0))
  | none => false

/-- `while index_date <= end_date` month enumeration, fuelled so it
reduces definitionally. -/
def monthSeqGo : Nat → Nat → List Nat
  | 0, _ => []
  | fuel + 1, s => s :: monthSeqGo fuel (s + 1)

/-- The ascending inclusive month range `[s..e]` visited by the while
loops of `compile_data_file_paths` and `delete_existing_data`. -/
def monthSeq (s e : Nat) : List Nat := monthSeqGo (e + 1 - s) s

/-- Rendering of the fixed partition path template
`locationid={{location_id}}/year={{year}}/month={{month}}/*` (line 201)
for one location and one (year, month number) pair. -/
def renderPath (location_id : String) (y m : Nat) : String :=
  "locationid=" ++ location_id ++ "/year=" ++ String.mk (charsOfNat y) ++
    "/month=" ++ String.mk (pad2chars m) ++ "/*"

/-- `compile_data_file_paths` (lines 122-140): for each location in
registry order, every month of the inclusive range ascending. -/
def compile_data_file_paths (location_ids : List String) (s e : Nat) : List String :=
  match location_ids with
  | [] => []
  | l :: rest =>
      (monthSeq s e).map (fun am => renderPath l (am / 12) (am % 12 + 1)) ++
        compile_data_file_paths rest s e

/-- One `DELETE FROM raw.air_quality WHERE year = {y} AND month = '{mm}'`
statement (lines 160-163) applied to the table state. -/
def deleteOneMonth (rows : List Row) (am : Nat) : List Row :=
  rows.filter (fun r => !(r.year == am / 12 && r.month == String.mk (pad2chars (am % 12 + 1))))

/-- `delete_existing_data` (lines 151-168): one delete statement per
month of the inclusive range, ascending. -/
def delete_existing_data (rows : List Row) (s e : Nat) : List Row × List Event :=
  ((monthSeq s e).foldl deleteOneMonth rows, (monthSeq s e).map Event.deleteMonth)

/-- State of the per-partition load loop after it finishes or aborts:
trace, table state, the `successful_extractions` counter, and the
message of the uncaught exception when one was raised. -/
structure LoadLoopResult where
  events : List Event
  rows : List Row
  successes : Nat
  err : Option String

/-- The load loop of lines 217-231: per partition, submit the compiled
query; on success count it, on `IOException` warn and continue, on any
other exception abort the loop with the error. -/
def runLoads (f : String → LoadOutcome) : List String → List Row → Nat → LoadLoopResult
  | [], rows, n => ⟨[], rows, n, none⟩
  | p :: ps, rows, n =>
    match f p with
    | .success newRows =>
        let r := runLoads f ps (rows ++ newRows) (n + 1)
        ⟨.loadAttempt p :: r.events, r.rows, r.successes, r.err⟩
    | .notFound m =>
        let r := runLoads f ps rows n
        ⟨.loadAttempt p :: .warn ("Could not find data from " ++ p ++ ": " ++ m) :: r.events,
          r.rows, r.successes, r.err⟩
    | .hardError m => ⟨[.loadAttempt p], rows, n, some m⟩

/-- The post-loop row-count query of lines 234-237:
`SELECT COUNT(*) FROM raw.air_quality WHERE year || '-' || month >= ?
AND year || '-' || month <= ?` with the `"YYYY-MM"` bounds. -/
def countRecords (rows : List Row) (s e : Nat) : Nat :=
  (rows.filter (fun r => sqlLe (fmtChars s) (rowKey r) && sqlLe (rowKey r) (fmtChars e))).length

/-- Observable result of one `extract_data` run: the Python return /
raised exception, the event trace, the final `raw.air_quality` state,
and the final value of the `successful_extractions` counter. -/
structure RunResult where
  result : Except String Unit
  events : List Event
  rows : List Row
  successes : Nat

/-- Body of `extract_data` from line 198 on, once a range is resolved
and the up-to-date short-circuit did not fire: open the ledger job,
compile the paths, delete the range in non-incremental mode, run the
load loop, and close the job with exactly one terminal transition
(lines 198-246). -/
def runJob (env : Env) (args : Args) (s e : Nat) (evs : List Event) : RunResult :=
  let paths := compile_data_file_paths args.locations s e
  let del :=
    if args.incremental then (env.initialRows, ([] : List Event))
    else delete_existing_data env.initialRows s e
  let lr := runLoads env.outcome paths del.1 0
  match lr.err with
  | some m =>
      ⟨.error m,
        evs ++ Event.jobOpened env.nextId s e :: del.2 ++ lr.events ++ [.jobFailed env.nextId m],
        lr.rows, lr.successes⟩
  | none =>
      let records := countRecords lr.rows s e
      ⟨.ok (),
        evs ++ Event.jobOpened env.nextId s e :: del.2 ++ lr.events ++
          [.jobCompleted env.nextId records],
        lr.rows, lr.successes⟩

/-- `extract_data` (lines 171-248): resolve the range (raising in
manual mode when a bound is missing), apply the incremental up-to-date
short-circuit of lines 186-195, then run the job; an exception raised
before the job is opened produces no ledger write at all. -/
def extract_data (env : Env) (args : Args) : RunResult :=
  if args.incremental then
    match determine_date_range env.ledgerRead env.now true with
    | .error m => ⟨.error m, [], env.initialRows, 0⟩
    | .ok ((s, e), evs0) =>
        let last := get_last_extraction_date env.ledgerRead
        if alreadyUpToDate last.1 env.now then
          ⟨.ok (), evs0 ++ last.2, env.initialRows, 0⟩
        else
          runJob env args s e (evs0 ++ last.2)
  else
    match args.start_date, args.end_date with
    | some s, some e => runJob env args s e []
    | _, _ =>
        ⟨.error "start_date and end_date are required when not in incremental mode",
          [], env.initialRows, 0⟩

/-! ### Trace observers -/

/-- The partition locators submitted to the storage engine, in order. -/
def loadAttemptsOf (evs : List Event) : List String :=
  evs.filterMap (fun ev => match ev with | .loadAttempt p => some p | _ => none)

/-- The months for which a DELETE statement was issued, in order. -/
def deletesOf (evs : List Event) : List Nat :=
  evs.filterMap (fun ev => match ev with | .deleteMonth am => some am | _ => none)

/-- Number of logged warnings. -/
def warnsOf (evs : List Event) : Nat :=
  evs.countP (fun ev => match ev with | .warn _ => true | _ => false)

/-- Whether an event is a terminal ledger transition (complete or fail)
for the given job id. -/
def isTerminalFor (id : Nat) : Event → Bool
  | .jobCompleted i _ => i == id
  | .jobFailed i _ => i == id
  | _ => false

/-- Number of terminal ledger transitions applied to the given job id. -/
def terminalCount (id : Nat) (evs : List Event) : Nat :=
  evs.countP (isTerminalFor id)

/-- Whether a load outcome is the "source not found" (`IOException`)
class. -/
def isNotFoundOutcome : LoadOutcome → Bool
  | .notFound _ => true
  | _ => false

/-- Whether a load outcome is a success (increments the
`successful_extractions` counter). -/
def isSuccessOutcome : LoadOutcome → Bool
  | .success _ => true
  | _ => false

/-- Whether a load outcome is an uncaught ("hard") error. -/
def isHardOutcome : LoadOutcome → Bool
  | .hardError _ => true
  | _ => false

/-! ### Decimal rendering and lexicographic order: helper lemmas -/

theorem charsOfNatGo_congr : ∀ f1 f2 n, n < f1 → n < f2 →
    charsOfNatGo f1 n = charsOfNatGo f2 n := by
  intro f1
  induction f1 with
  | zero => intro f2 n h1 _; omega
  | succ f ih =>
    intro f2 n h1 h2
    match f2 with
    | 0 => omega
    | f2' + 1 =>
      show (if n < 10 then _ else _) = (if n < 10 then _ else _)
      by_cases hn : n < 10
      · simp [hn]
      · have hd : n / 10 < n := Nat.div_lt_self (by omega) (by omega)
        simp only [hn, if_false]
        rw [ih f2' (n / 10) (by omega) (by omega)]

theorem charsOfNat_eq (n : Nat) :
    charsOfNat n =
      if n < 10 then [Nat.digitChar n]
      else charsOfNat (n / 10) ++ [Nat.digitChar (n % 10)] := by
  show charsOfNatGo (n + 1) n = _
  by_cases hn : n < 10
  · simp [charsOfNatGo, hn]
  · have hd : n / 10 < n := Nat.div_lt_self (by omega) (by omega)
    simp only [charsOfNatGo, hn, if_false]
    rw [charsOfNatGo_congr n (n / 10 + 1) (n / 10) (by omega) (by omega)]
    rfl

theorem charsOfNat_length_pos (n : Nat) : 1 ≤ (charsOfNat n).length := by
  induction n using Nat.strong_induction_on with
  | _ n ih =>
    rw [charsOfNat_eq]
    by_cases hn : n < 10
    · simp [hn]
    · have hd : n / 10 < n := Nat.div_lt_self (by omega) (by omega)
      have := ih (n / 10) hd
      simp only [hn, if_false, List.length_append, List.length_cons, List.length_nil]
      omega

theorem charsOfNat_length_four (y : Nat) (h1 : 1000 ≤ y) (h2 : y ≤ 9999) :
    (charsOfNat y).length = 4 := by
  have s1 : charsOfNat y = charsOfNat (y / 10) ++ [Nat.digitChar (y % 10)] := by
    rw [charsOfNat_eq]; simp only [show ¬ y < 10 by omega, if_false]
  have s2 : charsOfNat (y / 10) = charsOfNat (y / 10 / 10) ++ [Nat.digitChar (y / 10 % 10)] := by
    rw [charsOfNat_eq]; simp only [show ¬ y / 10 < 10 by omega, if_false]
  have s3 : charsOfNat (y / 10 / 10) =
      charsOfNat (y / 10 / 10 / 10) ++ [Nat.digitChar (y / 10 / 10 % 10)] := by
    rw [charsOfNat_eq]; simp only [show ¬ y / 10 / 10 < 10 by omega, if_false]
  have s4 : charsOfNat (y / 10 / 10 / 10) = [Nat.digitChar (y / 10 / 10 / 10)] := by
    rw [charsOfNat_eq]; simp only [show y / 10 / 10 / 10 < 10 by omega, if_true]
  rw [s1, s2, s3, s4]
  simp

theorem char_eq_of_not_lt {x y : Char} (h1 : ¬ x < y) (h2 : ¬ y < x) : x = y :=
  le_antisymm (not_lt.mp h2) (not_lt.mp h1)

theorem lexLt_singleton (c d : Char) : lexLt [c] [d] = decide (c < d) := by
  show (if c < d then true else if d < c then false else lexLt [] []) = decide (c < d)
  rcases lt_trichotomy c d with h | h | h
  · simp [h]
  · subst h; simp [lt_irrefl, lexLt]
  · simp [h, not_lt_of_gt h, lexLt]

theorem digitChar_lt_iff : ∀ a < 10, ∀ b < 10,
    (Nat.digitChar a < Nat.digitChar b ↔ a < b) := by decide

theorem digitChar_inj_iff : ∀ a < 10, ∀ b < 10,
    (Nat.digitChar a = Nat.digitChar b ↔ a = b) := by decide

theorem lexLt_append (a1 : List Char) : ∀ a2 b1 b2 : List Char, a1.length = a2.length →
    lexLt (a1 ++ b1) (a2 ++ b2) = (lexLt a1 a2 || (a1 == a2 && lexLt b1 b2)) := by
  induction a1 with
  | nil =>
    intro a2 b1 b2 hlen
    match a2 with
    | [] => simp [lexLt]
    | _ :: _ => simp at hlen
  | cons x as ih =>
    intro a2 b1 b2 hlen
    match a2 with
    | [] => simp at hlen
    | y :: bs =>
      have hlen' : as.length = bs.length := by simpa using hlen
      show (if x < y then true else if y < x then false else lexLt (as ++ b1) (bs ++ b2)) = _
      rcases lt_trichotomy x y with h | h | h
      · simp [lexLt, h]
      · subst h
        simp only [lt_irrefl, if_false]
        rw [ih bs b1 b2 hlen']
        show _ = (lexLt (x :: as) (x :: bs) || ((x :: as == x :: bs) && lexLt b1 b2))
        have hx : lexLt (x :: as) (x :: bs) = lexLt as bs := by
          show (if x < x then true else if x < x then false else lexLt as bs) = lexLt as bs
          simp [lt_irrefl]
        rw [hx]
        have hbeq : (x :: as == x :: bs) = (as == bs) := by
          show (x == x && as == bs) = (as == bs)
          simp
        rw [hbeq]
      · have hxy : ¬ x < y := not_lt_of_gt h
        have hne : x ≠ y := ne_of_gt h
        simp only [hxy, if_false, h, if_true]
        have h1 : lexLt (x :: as) (y :: bs) = false := by
          show (if x < y then true else if y < x then false else lexLt as bs) = false
          simp [hxy, h]
        have h2 : (x :: as == y :: bs) = false := by
          show (x == y && as == bs) = false
          have : (x == y) = false := beq_eq_false_iff_ne.mpr hne
          simp [this]
        rw [h1, h2]
        simp

theorem charsOfNat_lex (n : Nat) : ∀ m : Nat, (charsOfNat n).length = (charsOfNat m).length →
    (lexLt (charsOfNat n) (charsOfNat m) = decide (n < m)) ∧
    (charsOfNat n = charsOfNat m ↔ n = m) := by
  induction n using Nat.strong_induction_on with
  | _ n ih =>
    intro m hlen
    by_cases hn : n < 10 <;> by_cases hm : m < 10
    · rw [charsOfNat_eq, if_pos hn, charsOfNat_eq, if_pos hm]
      constructor
      · rw [lexLt_singleton]
        have := digitChar_lt_iff n hn m hm
        by_cases h : n < m
        · simp [this.mpr h, h]
        · have : ¬ Nat.digitChar n < Nat.digitChar m := fun hc => h (this.mp hc)
          simp [this, h]
      · constructor
        · intro h
          have : Nat.digitChar n = Nat.digitChar m := by simpa using h
          exact (digitChar_inj_iff n hn m hm).mp this
        · intro h; subst h; rfl
    · exfalso
      rw [charsOfNat_eq n, if_pos hn, charsOfNat_eq m, if_neg hm] at hlen
      have := charsOfNat_length_pos (m / 10)
      simp only [List.length_singleton, List.length_append, List.length_cons,
        List.length_nil] at hlen
      omega
    · exfalso
      rw [charsOfNat_eq n, if_neg hn, charsOfNat_eq m, if_pos hm] at hlen
      have := charsOfNat_length_pos (n / 10)
      simp only [List.length_singleton, List.length_append, List.length_cons,
        List.length_nil] at hlen
      omega
    · rw [charsOfNat_eq n, if_neg hn, charsOfNat_eq m, if_neg hm] at hlen ⊢
      have hdiv : n / 10 < n := Nat.div_lt_self (by omega) (by omega)
      have hlen' : (charsOfNat (n / 10)).length = (charsOfNat (m / 10)).length := by
        simp only [List.length_append, List.length_cons, List.length_nil] at hlen
        omega
      obtain ⟨ihlex, iheq⟩ := ih (n / 10) hdiv (m / 10) hlen'
      have hmodn : n % 10 < 10 := Nat.mod_lt _ (by omega)
      have hmodm : m % 10 < 10 := Nat.mod_lt _ (by omega)
      constructor
      · rw [lexLt_append _ _ _ _ hlen', ihlex, lexLt_singleton]
        by_cases hAB : charsOfNat (n / 10) = charsOfNat (m / 10)
        · have hq : n / 10 = m / 10 := iheq.mp hAB
          have hbeq : (charsOfNat (n / 10) == charsOfNat (m / 10)) = true := by
            simp [hAB]
          rw [hbeq]
          have hdl := digitChar_lt_iff (n % 10) hmodn (m % 10) hmodm
          by_cases hr : n % 10 < m % 10
          · have : n < m := by omega
            simp [hdl.mpr hr, this, hq, lt_irrefl]
          · have h1 : ¬ Nat.digitChar (n % 10) < Nat.digitChar (m % 10) :=
              fun hc => hr (hdl.mp hc)
            have h2 : ¬ n < m := by omega
            simp [h1, h2, hq, lt_irrefl]
        · have hq : n / 10 ≠ m / 10 := fun h => hAB (iheq.mpr h)
          have hbeq : (charsOfNat (n / 10) == charsOfNat (m / 10)) = false :=
            beq_eq_false_iff_ne.mpr hAB
          rw [hbeq]
          by_cases hql : n / 10 < m / 10
          · have : n < m := by omega
            simp [hql, this]
          · have hgl : ¬ n < m := by omega
            simp [hql, hgl]
      · constructor
        · intro h
          obtain ⟨h1, h2⟩ := List.append_inj h hlen'
          have hq : n / 10 = m / 10 := iheq.mp h1
          have hr : n % 10 = m % 10 := by
            have : Nat.digitChar (n % 10) = Nat.digitChar (m % 10) := by simpa using h2
            exact (digitChar_inj_iff (n % 10) hmodn (m % 10) hmodm).mp this
          omega
        · intro h; subst h; rfl

theorem pad2chars_lex : ∀ m1 < 13, ∀ m2 < 13,
    (lexLt (pad2chars m1) (pad2chars m2) = decide (m1 < m2)) ∧
    (pad2chars m1 = pad2chars m2 ↔ m1 = m2) := by decide

theorem pad2chars_length : ∀ m < 13, (pad2chars m).length = 2 := by decide

/-- The `"YYYY-MM"`-shaped key built from a year and month number, the
common shape of `rowKey` (for a zero-padded stored month) and
`fmtChars`. -/
def monthChars (y m : Nat) : List Char := charsOfNat y ++ '-' :: pad2chars m

theorem fmtChars_eq_monthChars (am : Nat) :
    fmtChars am = monthChars (am / 12) (am % 12 + 1) := rfl

theorem rowKey_eq_monthChars (y m : Nat) :
    rowKey ⟨y, String.mk (pad2chars m)⟩ = monthChars y m := rfl

theorem monthChars_lexLt (y1 m1 y2 m2 : Nat)
    (hy1a : 1000 ≤ y1) (hy1b : y1 ≤ 9999) (hy2a : 1000 ≤ y2) (hy2b : y2 ≤ 9999)
    (hm1a : 1 ≤ m1) (hm1b : m1 ≤ 12) (hm2a : 1 ≤ m2) (hm2b : m2 ≤ 12) :
    lexLt (monthChars y1 m1) (monthChars y2 m2) =
      decide (y1 * 12 + m1 < y2 * 12 + m2) := by
  have hlen : (charsOfNat y1).length = (charsOfNat y2).length := by
    rw [charsOfNat_length_four y1 hy1a hy1b, charsOfNat_length_four y2 hy2a hy2b]
  obtain ⟨hylex, hyeq⟩ := charsOfNat_lex y1 y2 hlen
  have hdash : lexLt ('-' :: pad2chars m1) ('-' :: pad2chars m2) =
      lexLt (pad2chars m1) (pad2chars m2) := by
    show (if '-' < '-' then true else if '-' < '-' then false else _) = _
    simp [lt_irrefl]
  have hpad := pad2chars_lex m1 (by omega) m2 (by omega)
  rw [monthChars, monthChars, lexLt_append _ _ _ _ hlen, hylex, hdash, hpad.1]
  by_cases hy : y1 = y2
  · have hbeq : (charsOfNat y1 == charsOfNat y2) = true := by
      simp [hyeq.mpr hy]
    rw [hbeq]
    by_cases hm : m1 < m2
    · have : y1 * 12 + m1 < y2 * 12 + m2 := by omega
      simp [hy, hm, this]
    · have : ¬ y1 * 12 + m1 < y2 * 12 + m2 := by omega
      simp [hy, hm, this]
  · have hbeq : (charsOfNat y1 == charsOfNat y2) = false :=
      beq_eq_false_iff_ne.mpr (fun h => hy (hyeq.mp h))
    rw [hbeq]
    by_cases hyl : y1 < y2
    · have : y1 * 12 + m1 < y2 * 12 + m2 := by omega
      simp [hyl, this]
    · have : ¬ y1 * 12 + m1 < y2 * 12 + m2 := by omega
      simp [hyl, this]

theorem sqlLe_monthChars (y1 m1 y2 m2 : Nat)
    (hy1a : 1000 ≤ y1) (hy1b : y1 ≤ 9999) (hy2a : 1000 ≤ y2) (hy2b : y2 ≤ 9999)
    (hm1a : 1 ≤ m1) (hm1b : m1 ≤ 12) (hm2a : 1 ≤ m2) (hm2b : m2 ≤ 12) :
    sqlLe (monthChars y1 m1) (monthChars y2 m2) =
      decide (y1 * 12 + m1 ≤ y2 * 12 + m2) := by
  rw [sqlLe, monthChars_lexLt y2 m2 y1 m1 hy2a hy2b hy1a hy1b hm2a hm2b hm1a hm1b]
  by_cases h : y2 * 12 + m2 < y1 * 12 + m1
  · have : ¬ y1 * 12 + m1 ≤ y2 * 12 + m2 := by omega
    simp [h, this]
  · have : y1 * 12 + m1 ≤ y2 * 12 + m2 := by omega
    simp [h, this]

/-! ### Month enumeration lemmas -/

theorem monthSeqGo_eq_range (fuel : Nat) : ∀ s : Nat,
    monthSeqGo fuel s = (List.range fuel).map (fun i => s + i) := by
  induction fuel with
  | zero => intro s; rfl
  | succ f ih =>
    intro s
    show s :: monthSeqGo f (s + 1) = _
    rw [ih (s + 1), List.range_succ_eq_map]
    have h1 : (fun i => s + 1 + i) = ((fun i => s + i) ∘ Nat.succ) := by
      funext i
      simp only [Function.comp_apply]
      omega
    simp only [List.map_cons, List.map_map, Nat.add_zero, h1]

theorem monthSeq_eq_range (s e : Nat) :
    monthSeq s e = (List.range (e + 1 - s)).map (fun i => s + i) :=
  monthSeqGo_eq_range (e + 1 - s) s

theorem monthSeq_nil (s e : Nat) (h : e < s) : monthSeq s e = [] := by
  unfold monthSeq
  have : e + 1 - s = 0 := by omega
  rw [this]
  rfl

theorem compile_eq_bind (locs : List String) (s e : Nat) :
    compile_data_file_paths locs s e =
      locs.flatMap (fun l => (monthSeq s e).map (fun am => renderPath l (am / 12) (am % 12 + 1))) := by
  induction locs with
  | nil => rfl
  | cons l rest ih =>
    show _ ++ compile_data_file_paths rest s e = _
    rw [ih, List.flatMap_cons]

theorem compile_nil_of_empty_range (locs : List String) (s e : Nat) (h : e < s) :
    compile_data_file_paths locs s e = [] := by
  induction locs with
  | nil => rfl
  | cons l rest ih =>
    show _ ++ compile_data_file_paths rest s e = []
    rw [ih, monthSeq_nil s e h]
    rfl

/-! ### Trace observer lemmas -/

theorem loadAttemptsOf_append (a b : List Event) :
    loadAttemptsOf (a ++ b) = loadAttemptsOf a ++ loadAttemptsOf b :=
  List.filterMap_append a b _

theorem deletesOf_append (a b : List Event) :
    deletesOf (a ++ b) = deletesOf a ++ deletesOf b :=
  List.filterMap_append a b _

theorem warnsOf_append (a b : List Event) :
    warnsOf (a ++ b) = warnsOf a + warnsOf b :=
  List.countP_append _ a b

theorem terminalCount_append (id : Nat) (a b : List Event) :
    terminalCount id (a ++ b) = terminalCount id a + terminalCount id b :=
  List.countP_append _ a b

theorem deletesOf_map_deleteMonth (l : List Nat) :
    deletesOf (l.map Event.deleteMonth) = l := by
  induction l with
  | nil => rfl
  | cons x xs ih =>
    show deletesOf (Event.deleteMonth x :: xs.map Event.deleteMonth) = x :: xs
    rw [deletesOf, List.filterMap_cons]
    show x :: deletesOf (xs.map Event.deleteMonth) = x :: xs
    rw [ih]

theorem loadAttemptsOf_map_deleteMonth (l : List Nat) :
    loadAttemptsOf (l.map Event.deleteMonth) = [] := by
  induction l with
  | nil => rfl
  | cons x xs ih =>
    show loadAttemptsOf (Event.deleteMonth x :: xs.map Event.deleteMonth) = []
    rw [loadAttemptsOf, List.filterMap_cons]
    exact ih

theorem warnsOf_map_deleteMonth (l : List Nat) :
    warnsOf (l.map Event.deleteMonth) = 0 := by
  induction l with
  | nil => rfl
  | cons x xs ih =>
    show warnsOf (Event.deleteMonth x :: xs.map Event.deleteMonth) = 0
    rw [warnsOf, List.countP_cons]
    show warnsOf (xs.map Event.deleteMonth) + (if false = true then 1 else 0) = 0
    simp [ih]

theorem terminalCount_map_deleteMonth (id : Nat) (l : List Nat) :
    terminalCount id (l.map Event.deleteMonth) = 0 := by
  induction l with
  | nil => rfl
  | cons x xs ih =>
    show terminalCount id (Event.deleteMonth x :: xs.map Event.deleteMonth) = 0
    rw [terminalCount, List.countP_cons]
    show terminalCount id (xs.map Event.deleteMonth) + (if false = true then 1 else 0) = 0
    simp [ih]

theorem loadAttemptsOf_nil : loadAttemptsOf [] = [] := rfl

theorem loadAttemptsOf_cons_attempt (p : String) (evs : List Event) :
    loadAttemptsOf (Event.loadAttempt p :: evs) = p :: loadAttemptsOf evs := by
  rw [loadAttemptsOf, loadAttemptsOf, List.filterMap_cons]

theorem loadAttemptsOf_cons_warn (m : String) (evs : List Event) :
    loadAttemptsOf (Event.warn m :: evs) = loadAttemptsOf evs := by
  rw [loadAttemptsOf, loadAttemptsOf, List.filterMap_cons]

theorem loadAttemptsOf_cons_opened (i s e : Nat) (evs : List Event) :
    loadAttemptsOf (Event.jobOpened i s e :: evs) = loadAttemptsOf evs := by
  rw [loadAttemptsOf, loadAttemptsOf, List.filterMap_cons]

theorem loadAttemptsOf_cons_completed (i v : Nat) (evs : List Event) :
    loadAttemptsOf (Event.jobCompleted i v :: evs) = loadAttemptsOf evs := by
  rw [loadAttemptsOf, loadAttemptsOf, List.filterMap_cons]

theorem loadAttemptsOf_cons_failed (i : Nat) (m : String) (evs : List Event) :
    loadAttemptsOf (Event.jobFailed i m :: evs) = loadAttemptsOf evs := by
  rw [loadAttemptsOf, loadAttemptsOf, List.filterMap_cons]

theorem deletesOf_nil : deletesOf [] = [] := rfl

theorem deletesOf_cons_attempt (p : String) (evs : List Event) :
    deletesOf (Event.loadAttempt p :: evs) = deletesOf evs := by
  rw [deletesOf, deletesOf, List.filterMap_cons]

theorem deletesOf_cons_warn (m : String) (evs : List Event) :
    deletesOf (Event.warn m :: evs) = deletesOf evs := by
  rw [deletesOf, deletesOf, List.filterMap_cons]

theorem deletesOf_cons_opened (i s e : Nat) (evs : List Event) :
    deletesOf (Event.jobOpened i s e :: evs) = deletesOf evs := by
  rw [deletesOf, deletesOf, List.filterMap_cons]

theorem deletesOf_cons_completed (i v : Nat) (evs : List Event) :
    deletesOf (Event.jobCompleted i v :: evs) = deletesOf evs := by
  rw [deletesOf, deletesOf, List.filterMap_cons]

theorem deletesOf_cons_failed (i : Nat) (m : String) (evs : List Event) :
    deletesOf (Event.jobFailed i m :: evs) = deletesOf evs := by
  rw [deletesOf, deletesOf, List.filterMap_cons]

theorem warnsOf_nil : warnsOf [] = 0 := rfl

theorem warnsOf_cons_warn (m : String) (evs : List Event) :
    warnsOf (Event.warn m :: evs) = warnsOf evs + 1 := by
  rw [warnsOf, warnsOf, List.countP_cons]
  rfl

theorem warnsOf_cons_attempt (p : String) (evs : List Event) :
    warnsOf (Event.loadAttempt p :: evs) = warnsOf evs := by
  rw [warnsOf, warnsOf, List.countP_cons]
  rfl

theorem warnsOf_cons_opened (i s e : Nat) (evs : List Event) :
    warnsOf (Event.jobOpened i s e :: evs) = warnsOf evs := by
  rw [warnsOf, warnsOf, List.countP_cons]
  rfl

theorem warnsOf_cons_completed (i v : Nat) (evs : List Event) :
    warnsOf (Event.jobCompleted i v :: evs) = warnsOf evs := by
  rw [warnsOf, warnsOf, List.countP_cons]
  rfl

theorem warnsOf_cons_failed (i : Nat) (m : String) (evs : List Event) :
    warnsOf (Event.jobFailed i m :: evs) = warnsOf evs := by
  rw [warnsOf, warnsOf, List.countP_cons]
  rfl

theorem terminalCount_nil (id : Nat) : terminalCount id [] = 0 := rfl

theorem terminalCount_cons_warn (id : Nat) (m : String) (evs : List Event) :
    terminalCount id (Event.warn m :: evs) = terminalCount id evs := by
  rw [terminalCount, terminalCount, List.countP_cons]
  simp [isTerminalFor]

theorem terminalCount_cons_attempt (id : Nat) (p : String) (evs : List Event) :
    terminalCount id (Event.loadAttempt p :: evs) = terminalCount id evs := by
  rw [terminalCount, terminalCount, List.countP_cons]
  simp [isTerminalFor]

theorem terminalCount_cons_opened (id i s e : Nat) (evs : List Event) :
    terminalCount id (Event.jobOpened i s e :: evs) = terminalCount id evs := by
  rw [terminalCount, terminalCount, List.countP_cons]
  simp [isTerminalFor]

theorem terminalCount_cons_delete (id am : Nat) (evs : List Event) :
    terminalCount id (Event.deleteMonth am :: evs) = terminalCount id evs := by
  rw [terminalCount, terminalCount, List.countP_cons]
  simp [isTerminalFor]

theorem terminalCount_cons_completed_same (id v : Nat) (evs : List Event) :
    terminalCount id (Event.jobCompleted id v :: evs) = terminalCount id evs + 1 := by
  rw [terminalCount, terminalCount, List.countP_cons]
  simp [isTerminalFor]

theorem terminalCount_cons_failed_same (id : Nat) (m : String) (evs : List Event) :
    terminalCount id (Event.jobFailed id m :: evs) = terminalCount id evs + 1 := by
  rw [terminalCount, terminalCount, List.countP_cons]
  simp [isTerminalFor]

/-! ### Per-partition loop: step and aggregate lemmas -/

/-- Successful load: count it and continue with the inserted rows. -/
theorem runLoads_step_success (f : String → LoadOutcome) (p : String) (ps : List String)
    (rows newRows : List Row) (n : Nat) (h : f p = .success newRows) :
    runLoads f (p :: ps) rows n =
      ⟨Event.loadAttempt p :: (runLoads f ps (rows ++ newRows) (n + 1)).events,
       (runLoads f ps (rows ++ newRows) (n + 1)).rows,
       (runLoads f ps (rows ++ newRows) (n + 1)).successes,
       (runLoads f ps (rows ++ newRows) (n + 1)).err⟩ := by
  simp only [runLoads, h]

/-- "Source not found" (`IOException`): log a warning and continue to
the next locator — the only error class caught inside the loop. -/
theorem runLoads_step_notFound (f : String → LoadOutcome) (p : String) (ps : List String)
    (rows : List Row) (n : Nat) (m : String) (h : f p = .notFound m) :
    runLoads f (p :: ps) rows n =
      ⟨Event.loadAttempt p :: Event.warn ("Could not find data from " ++ p ++ ": " ++ m) ::
         (runLoads f ps rows n).events,
       (runLoads f ps rows n).rows, (runLoads f ps rows n).successes,
       (runLoads f ps rows n).err⟩ := by
  simp only [runLoads, h]

/-- Any other error: the loop aborts at once; the tail is never
touched and the error is carried out of the loop. -/
theorem runLoads_step_hard (f : String → LoadOutcome) (p : String) (ps : List String)
    (rows : List Row) (n : Nat) (m : String) (h : f p = .hardError m) :
    runLoads f (p :: ps) rows n = ⟨[Event.loadAttempt p], rows, n, some m⟩ := by
  simp only [runLoads, h]

/-- The per-partition loop emits only load attempts and warnings. -/
theorem runLoads_shape (f : String → LoadOutcome) : ∀ (ps : List String) (rows : List Row)
    (n : Nat), ∀ ev ∈ (runLoads f ps rows n).events,
    (∃ p, ev = Event.loadAttempt p) ∨ (∃ m, ev = Event.warn m) := by
  intro ps
  induction ps with
  | nil => intro rows n ev h; exact absurd h (List.not_mem_nil ev)
  | cons p rest ih =>
    intro rows n ev hev
    rcases hout : f p with newRows | m | m
    · rw [runLoads_step_success f p rest rows newRows n hout] at hev
      rcases List.mem_cons.mp hev with h | h
      · exact Or.inl ⟨p, h⟩
      · exact ih _ _ ev h
    · rw [runLoads_step_notFound f p rest rows n m hout] at hev
      rcases List.mem_cons.mp hev with h | h
      · exact Or.inl ⟨p, h⟩
      · rcases List.mem_cons.mp h with h' | h'
        · exact Or.inr ⟨_, h'⟩
        · exact ih _ _ ev h'
    · rw [runLoads_step_hard f p rest rows n m hout] at hev
      rcases List.mem_cons.mp hev with h | h
      · exact Or.inl ⟨p, h⟩
      · exact absurd h (List.not_mem_nil ev)

theorem runLoads_terminalCount (f : String → LoadOutcome) (ps : List String) (rows : List Row)
    (n id : Nat) : terminalCount id (runLoads f ps rows n).events = 0 := by
  apply List.countP_eq_zero.mpr
  intro ev hev
  rcases runLoads_shape f ps rows n ev hev with ⟨p, h⟩ | ⟨m, h⟩ <;> subst h <;>
    simp [isTerminalFor]

theorem runLoads_deletesOf (f : String → LoadOutcome) (ps : List String) (rows : List Row)
    (n : Nat) : deletesOf (runLoads f ps rows n).events = [] := by
  apply List.filterMap_eq_nil_iff.mpr
  intro ev hev
  rcases runLoads_shape f ps rows n ev hev with ⟨p, h⟩ | ⟨m, h⟩ <;> subst h <;> rfl

/-- When no partition triggers a hard error the loop runs to
exhaustion: no uncaught exception, every locator attempted in order,
one warning per "not found" locator, and the success counter counts
the non-"not found" locators. -/
theorem runLoads_soft (f : String → LoadOutcome) : ∀ (ps : List String) (rows : List Row)
    (n : Nat), (∀ q ∈ ps, isHardOutcome (f q) = false) →
    (runLoads f ps rows n).err = none ∧
    loadAttemptsOf (runLoads f ps rows n).events = ps ∧
    warnsOf (runLoads f ps rows n).events = ps.countP (fun q => isNotFoundOutcome (f q)) ∧
    (runLoads f ps rows n).successes =
      n + ps.countP (fun q => isSuccessOutcome (f q)) := by
  intro ps
  induction ps with
  | nil =>
    intro rows n _
    exact ⟨rfl, rfl, rfl, by simp [runLoads]⟩
  | cons p rest ih =>
    intro rows n hsoft
    have hrest : ∀ q ∈ rest, isHardOutcome (f q) = false :=
      fun q hq => hsoft q (List.mem_cons_of_mem p hq)
    have hcp : List.countP (fun q => isNotFoundOutcome (f q)) (p :: rest) =
        List.countP (fun q => isNotFoundOutcome (f q)) rest +
          (if isNotFoundOutcome (f p) = true then 1 else 0) := List.countP_cons _ _ _
    have hcp2 : List.countP (fun q => isSuccessOutcome (f q)) (p :: rest) =
        List.countP (fun q => isSuccessOutcome (f q)) rest +
          (if isSuccessOutcome (f p) = true then 1 else 0) := List.countP_cons _ _ _
    rcases hout : f p with newRows | m | m
    · have hnf : isNotFoundOutcome (f p) = false := by rw [hout]; rfl
      have hsu : isSuccessOutcome (f p) = true := by rw [hout]; rfl
      obtain ⟨h1, h2, h3, h4⟩ := ih (rows ++ newRows) (n + 1) hrest
      rw [runLoads_step_success f p rest rows newRows n hout]
      refine ⟨h1, ?_, ?_, ?_⟩
      · rw [loadAttemptsOf_cons_attempt, h2]
      · rw [warnsOf_cons_attempt, h3, hcp, hnf]
        rfl
      · rw [h4, hcp2, hsu]
        show n + 1 + _ = n + (_ + 1)
        omega
    · have hnf : isNotFoundOutcome (f p) = true := by rw [hout]; rfl
      have hsu : isSuccessOutcome (f p) = false := by rw [hout]; rfl
      obtain ⟨h1, h2, h3, h4⟩ := ih rows n hrest
      rw [runLoads_step_notFound f p rest rows n m hout]
      refine ⟨h1, ?_, ?_, ?_⟩
      · rw [loadAttemptsOf_cons_attempt, loadAttemptsOf_cons_warn, h2]
      · rw [warnsOf_cons_attempt, warnsOf_cons_warn, h3, hcp, hnf]
        rfl
      · rw [h4, hcp2, hsu]
        rfl
    · have hc := hsoft p (List.mem_cons_self p rest)
      rw [hout] at hc
      exact absurd hc (by simp [isHardOutcome])

/-- When the first hard error sits after a hard-error-free leading
segment, the loop attempts exactly the leading segment plus the failing
locator and aborts carrying the captured message. -/
theorem runLoads_hard (f : String → LoadOutcome) : ∀ (pre : List String) (p : String)
    (post : List String) (rows : List Row) (n : Nat) (msg : String),
    (∀ q ∈ pre, isHardOutcome (f q) = false) → f p = .hardError msg →
    (runLoads f (pre ++ p :: post) rows n).err = some msg ∧
    loadAttemptsOf (runLoads f (pre ++ p :: post) rows n).events = pre ++ [p] := by
  intro pre
  induction pre with
  | nil =>
    intro p post rows n msg _ hp
    rw [List.nil_append]
    rw [runLoads_step_hard f p post rows n msg hp]
    exact ⟨rfl, by rw [loadAttemptsOf_cons_attempt]; rfl⟩
  | cons q rest ih =>
    intro p post rows n msg hsoft hp
    have hrest : ∀ x ∈ rest, isHardOutcome (f x) = false :=
      fun x hx => hsoft x (List.mem_cons_of_mem q hx)
    rcases hout : f q with newRows | m | m
    · obtain ⟨h1, h2⟩ := ih p post (rows ++ newRows) (n + 1) msg hrest hp
      rw [List.cons_append, runLoads_step_success f q (rest ++ p :: post) rows newRows n hout]
      exact ⟨h1, by rw [loadAttemptsOf_cons_attempt, h2]; rfl⟩
    · obtain ⟨h1, h2⟩ := ih p post rows n msg hrest hp
      rw [List.cons_append, runLoads_step_notFound f q (rest ++ p :: post) rows n m hout]
      exact ⟨h1, by rw [loadAttemptsOf_cons_attempt, loadAttemptsOf_cons_warn, h2]; rfl⟩
    · have hc := hsoft q (List.mem_cons_self q rest)
      rw [hout] at hc
      exact absurd hc (by simp [isHardOutcome])

/-! ### Driver unfolding lemmas -/

theorem extract_data_manual (env : Env) (args : Args) (s e : Nat)
    (hinc : args.incremental = false) (hs : args.start_date = some s)
    (he : args.end_date = some e) :
    extract_data env args = runJob env args s e [] := by
  simp only [extract_data, hinc, Bool.false_eq_true, if_false, hs, he]

theorem extract_data_manual_missing (env : Env) (args : Args)
    (hinc : args.incremental = false)
    (hmiss : args.start_date = none ∨ args.end_date = none) :
    extract_data env args =
      ⟨Except.error "start_date and end_date are required when not in incremental mode",
        [], env.initialRows, 0⟩ := by
  rcases hs : args.start_date with _ | s
  · simp only [extract_data, hinc, Bool.false_eq_true, if_false, hs]
  · rcases he : args.end_date with _ | e
    · simp only [extract_data, hinc, Bool.false_eq_true, if_false, hs, he]
    · exfalso
      rcases hmiss with h | h <;> simp_all

theorem extract_data_incremental_some (env : Env) (args : Args) (x : Nat)
    (hinc : args.incremental = true) (hr : env.ledgerRead = .ok (some x)) :
    extract_data env args =
      if alreadyUpToDate (some x) env.now then ⟨Except.ok (), [], env.initialRows, 0⟩
      else runJob env args (x + 1) env.now.month [] := by
  simp only [extract_data, hinc, if_true, determine_date_range, get_last_extraction_date, hr,
    List.append_nil, List.nil_append]

theorem extract_data_incremental_none (env : Env) (args : Args)
    (hinc : args.incremental = true) (hr : env.ledgerRead = .ok none) :
    extract_data env args = runJob env args (env.now.month - 3) env.now.month [] := by
  simp only [extract_data, hinc, if_true, determine_date_range, get_last_extraction_date, hr,
    List.append_nil, List.nil_append, alreadyUpToDate, Bool.false_eq_true, if_false]

theorem extract_data_incremental_err (env : Env) (args : Args) (m : String)
    (hinc : args.incremental = true) (hr : env.ledgerRead = .err m) :
    extract_data env args =
      runJob env args (env.now.month - 3) env.now.month
        [Event.warn ("Could not retrieve last extraction date: " ++ m),
         Event.warn ("Could not retrieve last extraction date: " ++ m)] := by
  simp only [extract_data, hinc, if_true, determine_date_range, get_last_extraction_date, hr,
    alreadyUpToDate, List.singleton_append, Bool.false_eq_true, if_false]

/-! ### Job-body anatomy lemmas -/

theorem runJob_manual_soft (env : Env) (args : Args) (s e : Nat) (evs : List Event)
    (hinc : args.incremental = false)
    (hsoft : ∀ q ∈ compile_data_file_paths args.locations s e,
      isHardOutcome (env.outcome q) = false) :
    runJob env args s e evs =
      ⟨Except.ok (),
        evs ++ Event.jobOpened env.nextId s e :: (monthSeq s e).map Event.deleteMonth ++
          (runLoads env.outcome (compile_data_file_paths args.locations s e)
            ((monthSeq s e).foldl deleteOneMonth env.initialRows) 0).events ++
          [Event.jobCompleted env.nextId
            (countRecords
              (runLoads env.outcome (compile_data_file_paths args.locations s e)
                ((monthSeq s e).foldl deleteOneMonth env.initialRows) 0).rows s e)],
        (runLoads env.outcome (compile_data_file_paths args.locations s e)
          ((monthSeq s e).foldl deleteOneMonth env.initialRows) 0).rows,
        (runLoads env.outcome (compile_data_file_paths args.locations s e)
          ((monthSeq s e).foldl deleteOneMonth env.initialRows) 0).successes⟩ := by
  obtain ⟨h1, _, _, _⟩ := runLoads_soft env.outcome
    (compile_data_file_paths args.locations s e)
    ((monthSeq s e).foldl deleteOneMonth env.initialRows) 0 hsoft
  simp only [runJob, hinc, Bool.false_eq_true, if_false, delete_existing_data]
  rw [h1]

theorem runJob_manual_hard (env : Env) (args : Args) (s e : Nat) (evs : List Event)
    (pre : List String) (p : String) (post : List String) (msg : String)
    (hinc : args.incremental = false)
    (hpaths : compile_data_file_paths args.locations s e = pre ++ p :: post)
    (hpre : ∀ q ∈ pre, isHardOutcome (env.outcome q) = false)
    (hp : env.outcome p = .hardError msg) :
    runJob env args s e evs =
      ⟨Except.error msg,
        evs ++ Event.jobOpened env.nextId s e :: (monthSeq s e).map Event.deleteMonth ++
          (runLoads env.outcome (pre ++ p :: post)
            ((monthSeq s e).foldl deleteOneMonth env.initialRows) 0).events ++
          [Event.jobFailed env.nextId msg],
        (runLoads env.outcome (pre ++ p :: post)
          ((monthSeq s e).foldl deleteOneMonth env.initialRows) 0).rows,
        (runLoads env.outcome (pre ++ p :: post)
          ((monthSeq s e).foldl deleteOneMonth env.initialRows) 0).successes⟩ := by
  obtain ⟨h1, _⟩ := runLoads_hard env.outcome pre p post
    ((monthSeq s e).foldl deleteOneMonth env.initialRows) 0 msg hpre hp
  simp only [runJob, hinc, Bool.false_eq_true, if_false, delete_existing_data, hpaths]
  rw [h1]

theorem runJob_incremental_soft (env : Env) (args : Args) (s e : Nat) (evs : List Event)
    (hinc : args.incremental = true)
    (hsoft : ∀ q ∈ compile_data_file_paths args.locations s e,
      isHardOutcome (env.outcome q) = false) :
    runJob env args s e evs =
      ⟨Except.ok (),
        evs ++ Event.jobOpened env.nextId s e :: ([] : List Event) ++
          (runLoads env.outcome (compile_data_file_paths args.locations s e)
            env.initialRows 0).events ++
          [Event.jobCompleted env.nextId
            (countRecords
              (runLoads env.outcome (compile_data_file_paths args.locations s e)
                env.initialRows 0).rows s e)],
        (runLoads env.outcome (compile_data_file_paths args.locations s e)
          env.initialRows 0).rows,
        (runLoads env.outcome (compile_data_file_paths args.locations s e)
          env.initialRows 0).successes⟩ := by
  obtain ⟨h1, _, _, _⟩ := runLoads_soft env.outcome
    (compile_data_file_paths args.locations s e) env.initialRows 0 hsoft
  simp only [runJob, hinc, if_true]
  rw [h1]

theorem runJob_terminalCount (env : Env) (args : Args) (s e : Nat) (evs : List Event) :
    terminalCount env.nextId (runJob env args s e evs).events =
      terminalCount env.nextId evs + 1 := by
  cases hinc : args.incremental
  · simp only [runJob, hinc, Bool.false_eq_true, if_false, delete_existing_data]
    rcases herr : (runLoads env.outcome (compile_data_file_paths args.locations s e)
        ((monthSeq s e).foldl deleteOneMonth env.initialRows) 0).err with _ | m <;>
      simp only [terminalCount_append, terminalCount_cons_opened,
        terminalCount_map_deleteMonth, runLoads_terminalCount,
        terminalCount_cons_completed_same, terminalCount_cons_failed_same,
        terminalCount_nil]
  · simp only [runJob, hinc, if_true]
    rcases herr : (runLoads env.outcome (compile_data_file_paths args.locations s e)
        env.initialRows 0).err with _ | m <;>
      simp only [terminalCount_append, terminalCount_cons_opened,
        List.nil_append, runLoads_terminalCount,
        terminalCount_cons_completed_same, terminalCount_cons_failed_same,
        terminalCount_nil]

theorem runJob_deletes_manual (env : Env) (args : Args) (s e : Nat) (evs : List Event)
    (hinc : args.incremental = false) :
    deletesOf (runJob env args s e evs).events = deletesOf evs ++ monthSeq s e := by
  simp only [runJob, hinc, Bool.false_eq_true, if_false, delete_existing_data]
  rcases herr : (runLoads env.outcome (compile_data_file_paths args.locations s e)
      ((monthSeq s e).foldl deleteOneMonth env.initialRows) 0).err with _ | m <;>
    simp only [deletesOf_append, deletesOf_cons_opened, deletesOf_map_deleteMonth,
      runLoads_deletesOf, deletesOf_cons_completed, deletesOf_cons_failed,
      deletesOf_nil, List.append_nil]

theorem runJob_deletes_incremental (env : Env) (args : Args) (s e : Nat) (evs : List Event)
    (hinc : args.incremental = true) :
    deletesOf (runJob env args s e evs).events = deletesOf evs := by
  simp only [runJob, hinc, if_true]
  rcases herr : (runLoads env.outcome (compile_data_file_paths args.locations s e)
      env.initialRows 0).err with _ | m <;>
    simp only [deletesOf_append, deletesOf_cons_opened, List.nil_append,
      runLoads_deletesOf, deletesOf_cons_completed, deletesOf_cons_failed,
      deletesOf_nil, List.append_nil]

theorem countP_ge_two_of_mem (p : Event → Bool) (l : List Event) (a b : Event)
    (ha : a ∈ l) (hb : b ∈ l) (hne : a ≠ b) (hpa : p a = true) (hpb : p b = true) :
    2 ≤ l.countP p := by
  obtain ⟨s, t, rfl⟩ := List.append_of_mem ha
  rcases List.mem_append.mp hb with hbs | hbt
  · have h1 : 0 < s.countP p := List.countP_pos_iff.mpr ⟨b, hbs, hpb⟩
    rw [List.countP_append, List.countP_cons, hpa]
    simp only [if_true]
    omega
  · rcases List.mem_cons.mp hbt with h | h
    · exact absurd h.symm hne
    · have h1 : 0 < t.countP p := List.countP_pos_iff.mpr ⟨b, h, hpb⟩
      rw [List.countP_append, List.countP_cons, hpa]
      simp only [if_true]
      omega

/-- A run whose trace opened the ledger job applies exactly one
terminal transition to it, whatever the load outcomes were. -/
theorem extract_data_terminal_of_opened (env : Env) (args : Args)
    (h : ∃ s e, Event.jobOpened env.nextId s e ∈ (extract_data env args).events) :
    terminalCount env.nextId (extract_data env args).events = 1 := by
  cases hinc : args.incremental
  · rcases hs : args.start_date with _ | s
    · rw [extract_data_manual_missing env args hinc (Or.inl hs)] at h ⊢
      obtain ⟨s, e, hmem⟩ := h
      exact absurd hmem (List.not_mem_nil _)
    · rcases he : args.end_date with _ | e
      · rw [extract_data_manual_missing env args hinc (Or.inr he)] at h ⊢
        obtain ⟨s', e', hmem⟩ := h
        exact absurd hmem (List.not_mem_nil _)
      · rw [extract_data_manual env args s e hinc hs he, runJob_terminalCount]
        rfl
  · rcases hr : env.ledgerRead with d | m
    · rcases d with _ | x
      · rw [extract_data_incremental_none env args hinc hr, runJob_terminalCount]
        rfl
      · rw [extract_data_incremental_some env args x hinc hr] at h ⊢
        cases hUp : alreadyUpToDate (some x) env.now
        · simp only [hUp, Bool.false_eq_true, if_false] at h ⊢
          rw [runJob_terminalCount]
          rfl
        · simp only [hUp, if_true] at h ⊢
          obtain ⟨s', e', hmem⟩ := h
          exact absurd hmem (List.not_mem_nil _)
    · rw [extract_data_incremental_err env args m hinc hr, runJob_terminalCount]
      simp only [terminalCount_cons_warn, terminalCount_nil]

/-- C2: for every run in which a ledger job is opened, exactly one
terminal transition (complete or fail) is applied to that job, and
complete and fail are never both recorded for it within one run. -/
theorem one_terminal_transition_per_job (env : Env) (args : Args)
    (h : ∃ s e, Event.jobOpened env.nextId s e ∈ (extract_data env args).events) :
    terminalCount env.nextId (extract_data env args).events = 1 ∧
    ¬((∃ v, Event.jobCompleted env.nextId v ∈ (extract_data env args).events) ∧
      (∃ m, Event.jobFailed env.nextId m ∈ (extract_data env args).events)) := by
  have htc := extract_data_terminal_of_opened env args h
  refine ⟨htc, ?_⟩
  rintro ⟨⟨v, hc⟩, ⟨m, hf⟩⟩
  have h2 : 2 ≤ (extract_data env args).events.countP (isTerminalFor env.nextId) := by
    apply countP_ge_two_of_mem _ _ (Event.jobCompleted env.nextId v)
      (Event.jobFailed env.nextId m) hc hf
    · intro heq
      exact Event.noConfusion heq
    · simp [isTerminalFor]
    · simp [isTerminalFor]
  rw [show (extract_data env args).events.countP (isTerminalFor env.nextId) =
    terminalCount env.nextId (extract_data env args).events from rfl, htc] at h2
  omega

/-- C2 witness: a concrete manual run opens job 1 and applies exactly
one terminal transition to it. -/
theorem one_terminal_transition_per_job_witness :
    (∃ s e, Event.jobOpened 1 s e ∈
      (extract_data
        { nextId := 1, outcome := fun _ => LoadOutcome.success [],
          ledgerRead := .ok none, now := ⟨24292, 5⟩, initialRows := [] }
        { incremental := false, start_date := some 24288, end_date := some 24288,
          locations := ["A"] }).events) ∧
    terminalCount 1
      (extract_data
        { nextId := 1, outcome := fun _ => LoadOutcome.success [],
          ledgerRead := .ok none, now := ⟨24292, 5⟩, initialRows := [] }
        { incremental := false, start_date := some 24288, end_date := some 24288,
          locations := ["A"] }).events = 1 := by
  have h : ∃ s e, Event.jobOpened 1 s e ∈
      (extract_data
        { nextId := 1, outcome := fun _ => LoadOutcome.success [],
          ledgerRead := .ok none, now := ⟨24292, 5⟩, initialRows := [] }
        { incremental := false, start_date := some 24288, end_date := some 24288,
          locations := ["A"] }).events := ⟨24288, 24288, by decide⟩
  exact ⟨h, (one_terminal_transition_per_job _ _ h).1⟩

/-- C7: in a manual run the pre-load deletion guard issues exactly one
DELETE per calendar month of the inclusive range, in ascending order
(one statement per month, not a single ranged delete); an incremental
run never issues any DELETE. -/
theorem delete_guard_manual_only (env : Env) (args : Args) (s e : Nat)
    (hinc : args.incremental = false) (hs : args.start_date = some s)
    (he : args.end_date = some e) :
    deletesOf (extract_data env args).events = monthSeq s e ∧
    monthSeq s e = (List.range (e + 1 - s)).map (fun i => s + i) ∧
    (∀ env2 : Env, ∀ args2 : Args, args2.incremental = true →
      deletesOf (extract_data env2 args2).events = []) := by
  refine ⟨?_, monthSeq_eq_range s e, ?_⟩
  · rw [extract_data_manual env args s e hinc hs he,
      runJob_deletes_manual env args s e [] hinc]
    rfl
  · intro env2 args2 hinc2
    rcases hr : env2.ledgerRead with d | m
    · rcases d with _ | x
      · rw [extract_data_incremental_none env2 args2 hinc2 hr,
          runJob_deletes_incremental env2 args2 _ _ [] hinc2]
        rfl
      · rw [extract_data_incremental_some env2 args2 x hinc2 hr]
        cases hUp : alreadyUpToDate (some x) env2.now
        · simp only [hUp, Bool.false_eq_true, if_false]
          rw [runJob_deletes_incremental env2 args2 _ _ [] hinc2]
          rfl
        · simp only [hUp, if_true]
          rfl
    · rw [extract_data_incremental_err env2 args2 m hinc2 hr,
        runJob_deletes_incremental env2 args2 _ _ _ hinc2]
      rfl

/-- C7 witness: a concrete manual run over 2024-01..2024-03 issues one
DELETE per month in ascending order, and a concrete incremental run
issues none. -/
theorem delete_guard_manual_only_witness :
    deletesOf (extract_data
      { nextId := 1, outcome := fun _ => LoadOutcome.success [],
        ledgerRead := .ok none, now := ⟨24292, 5⟩, initialRows := [] }
      { incremental := false, start_date := some 24288, end_date := some 24290,
        locations := ["A"] }).events = monthSeq 24288 24290 ∧
    monthSeq 24288 24290 = [24288, 24289, 24290] := by
  refine ⟨(delete_guard_manual_only
    { nextId := 1, outcome := fun _ => LoadOutcome.success [],
      ledgerRead := .ok none, now := ⟨24292, 5⟩, initialRows := [] }
    { incremental := false, start_date := some 24288, end_date := some 24290,
      locations := ["A"] } 24288 24290 rfl rfl rfl).1, by decide⟩

/-- C1 counterexample: a manual run with start 2024-03 (24290) strictly
after end 2024-01 (24288) is NOT rejected before a ledger write — an
ExtractionJob row is opened and even completed, and the run returns
success instead of failing. -/
theorem manual_empty_range_counterexample :
    (extract_data
      { nextId := 1, outcome := fun _ => LoadOutcome.success [],
        ledgerRead := .ok none, now := ⟨24292, 5⟩, initialRows := [] }
      { incremental := false, start_date := some 24290, end_date := some 24288,
        locations := ["A"] }).events =
      [Event.jobOpened 1 24290 24288, Event.jobCompleted 1 0] ∧
    (extract_data
      { nextId := 1, outcome := fun _ => LoadOutcome.success [],
        ledgerRead := .ok none, now := ⟨24292, 5⟩, initialRows := [] }
      { incremental := false, start_date := some 24290, end_date := some 24288,
        locations := ["A"] }).result = Except.ok () := ⟨by decide, rfl⟩

/-- C1 (amended): a manual run with start_month > end_month is not
rejected and does write to the ledger: an ExtractionJob row is opened,
no DELETE is issued, no partition is enumerated or loaded, and the job
is closed as completed, the run returning success as a no-op. -/
theorem manual_empty_range_not_rejected (env : Env) (args : Args) (s e : Nat)
    (hinc : args.incremental = false) (hs : args.start_date = some s)
    (he : args.end_date = some e) (hlt : e < s) :
    (extract_data env args).result = Except.ok () ∧
    Event.jobOpened env.nextId s e ∈ (extract_data env args).events ∧
    loadAttemptsOf (extract_data env args).events = [] ∧
    deletesOf (extract_data env args).events = [] ∧
    (∃ v, Event.jobCompleted env.nextId v ∈ (extract_data env args).events) := by
  have hpaths : compile_data_file_paths args.locations s e = [] :=
    compile_nil_of_empty_range args.locations s e hlt
  have hsoft : ∀ q ∈ compile_data_file_paths args.locations s e,
      isHardOutcome (env.outcome q) = false := by
    rw [hpaths]
    intro q hq
    exact absurd hq (List.not_mem_nil q)
  rw [extract_data_manual env args s e hinc hs he,
    runJob_manual_soft env args s e [] hinc hsoft, hpaths, monthSeq_nil s e hlt]
  refine ⟨rfl, ?_, ?_, ?_,
    ⟨countRecords (runLoads env.outcome [] (List.foldl deleteOneMonth env.initialRows []) 0).rows s e, ?_⟩⟩
  · simp
  · simp [runLoads, loadAttemptsOf_append, loadAttemptsOf_cons_opened,
      loadAttemptsOf_cons_completed, loadAttemptsOf_nil]
  · simp [runLoads, deletesOf_append, deletesOf_cons_opened,
      deletesOf_cons_completed, deletesOf_nil]
  · simp

/-- C1 witness for the amended claim at a concrete empty manual range. -/
theorem manual_empty_range_not_rejected_witness :
    (24288 : Nat) < 24290 ∧
    ((extract_data
      { nextId := 1, outcome := fun _ => LoadOutcome.success [],
        ledgerRead := .ok none, now := ⟨24292, 5⟩, initialRows := [] }
      { incremental := false, start_date := some 24290, end_date := some 24288,
        locations := ["A"] }).result = Except.ok () ∧
    Event.jobOpened 1 24290 24288 ∈
      (extract_data
        { nextId := 1, outcome := fun _ => LoadOutcome.success [],
          ledgerRead := .ok none, now := ⟨24292, 5⟩, initialRows := [] }
        { incremental := false, start_date := some 24290, end_date := some 24288,
          locations := ["A"] }).events ∧
    loadAttemptsOf
      (extract_data
        { nextId := 1, outcome := fun _ => LoadOutcome.success [],
          ledgerRead := .ok none, now := ⟨24292, 5⟩, initialRows := [] }
        { incremental := false, start_date := some 24290, end_date := some 24288,
          locations := ["A"] }).events = [] ∧
    deletesOf
      (extract_data
        { nextId := 1, outcome := fun _ => LoadOutcome.success [],
          ledgerRead := .ok none, now := ⟨24292, 5⟩, initialRows := [] }
        { incremental := false, start_date := some 24290, end_date := some 24288,
          locations := ["A"] }).events = [] ∧
    (∃ v, Event.jobCompleted 1 v ∈
      (extract_data
        { nextId := 1, outcome := fun _ => LoadOutcome.success [],
          ledgerRead := .ok none, now := ⟨24292, 5⟩, initialRows := [] }
        { incremental := false, start_date := some 24290, end_date := some 24288,
          locations := ["A"] }).events)) := by
  refine ⟨by decide, manual_empty_range_not_rejected _ _ 24290 24288 rfl rfl rfl (by decide)⟩

/-- C3: when some locator in the compiled partition sequence triggers a
hard (non-"source not found") error after the job is opened, the driver
attempts no later locator, records the job as failed with the captured
message, and re-raises the error to the caller. -/
theorem fail_fast_on_hard_error (env : Env) (args : Args) (s e : Nat)
    (pre : List String) (p : String) (post : List String) (msg : String)
    (hinc : args.incremental = false) (hs : args.start_date = some s)
    (he : args.end_date = some e)
    (hpaths : compile_data_file_paths args.locations s e = pre ++ p :: post)
    (hpre : ∀ q ∈ pre, isHardOutcome (env.outcome q) = false)
    (hp : env.outcome p = .hardError msg) :
    (extract_data env args).result = Except.error msg ∧
    Event.jobFailed env.nextId msg ∈ (extract_data env args).events ∧
    loadAttemptsOf (extract_data env args).events = pre ++ [p] := by
  obtain ⟨h1, h2⟩ := runLoads_hard env.outcome pre p post
    ((monthSeq s e).foldl deleteOneMonth env.initialRows) 0 msg hpre hp
  rw [extract_data_manual env args s e hinc hs he,
    runJob_manual_hard env args s e [] pre p post msg hinc hpaths hpre hp]
  refine ⟨rfl, ?_, ?_⟩
  · simp
  · rw [loadAttemptsOf_append, loadAttemptsOf_append, loadAttemptsOf_append, h2]
    rw [loadAttemptsOf_nil, loadAttemptsOf_cons_opened, loadAttemptsOf_map_deleteMonth,
      loadAttemptsOf_cons_failed, loadAttemptsOf_nil]
    simp

/-- C3 witness: one location, two months; the first load fails hard, so
only it is attempted, the job is recorded failed, and the error is
returned. -/
theorem fail_fast_on_hard_error_witness :
    (extract_data
      { nextId := 1,
        outcome := fun q =>
          if q = "locationid=A/year=2024/month=01/*" then LoadOutcome.hardError "boom"
          else LoadOutcome.success [],
        ledgerRead := .ok none, now := ⟨24292, 5⟩, initialRows := [] }
      { incremental := false, start_date := some 24288, end_date := some 24289,
        locations := ["A"] }).result = Except.error "boom" ∧
    Event.jobFailed 1 "boom" ∈
      (extract_data
        { nextId := 1,
          outcome := fun q =>
            if q = "locationid=A/year=2024/month=01/*" then LoadOutcome.hardError "boom"
            else LoadOutcome.success [],
          ledgerRead := .ok none, now := ⟨24292, 5⟩, initialRows := [] }
        { incremental := false, start_date := some 24288, end_date := some 24289,
          locations := ["A"] }).events ∧
    loadAttemptsOf
      (extract_data
        { nextId := 1,
          outcome := fun q =>
            if q = "locationid=A/year=2024/month=01/*" then LoadOutcome.hardError "boom"
            else LoadOutcome.success [],
          ledgerRead := .ok none, now := ⟨24292, 5⟩, initialRows := [] }
        { incremental := false, start_date := some 24288, end_date := some 24289,
          locations := ["A"] }).events = [] ++ ["locationid=A/year=2024/month=01/*"] := by
  exact fail_fast_on_hard_error _ _ 24288 24289 []
    "locationid=A/year=2024/month=01/*" ["locationid=A/year=2024/month=02/*"] "boom"
    rfl rfl rfl (by decide) (by intro q hq; exact absurd hq (List.not_mem_nil q)) (by decide)

/-- C4: when one or more locators trigger "source not found" and every
other locator succeeds, the executor warns and continues — every
locator is attempted, one warning is logged per missing partition, the
job still completes, and the run returns success.  The last conjunct
exhibits the partition-level catch itself: a "not found" outcome makes
the loop continue to the tail, while a hard error aborts it at once, so
"source not found" is the only error class caught at that level. -/
theorem not_found_partitions_tolerated (env : Env) (args : Args) (s e : Nat)
    (hinc : args.incremental = false) (hs : args.start_date = some s)
    (he : args.end_date = some e)
    (hclass : ∀ q ∈ compile_data_file_paths args.locations s e,
      isSuccessOutcome (env.outcome q) = true ∨ isNotFoundOutcome (env.outcome q) = true)
    (hnf : ∃ q ∈ compile_data_file_paths args.locations s e,
      isNotFoundOutcome (env.outcome q) = true) :
    (extract_data env args).result = Except.ok () ∧
    (∃ v, Event.jobCompleted env.nextId v ∈ (extract_data env args).events) ∧
    loadAttemptsOf (extract_data env args).events =
      compile_data_file_paths args.locations s e ∧
    warnsOf (extract_data env args).events =
      (compile_data_file_paths args.locations s e).countP
        (fun q => isNotFoundOutcome (env.outcome q)) ∧
    1 ≤ warnsOf (extract_data env args).events ∧
    (∀ (f : String → LoadOutcome) (q : String) (qs : List String) (rows : List Row)
        (k : Nat) (m : String),
      (f q = LoadOutcome.notFound m →
        runLoads f (q :: qs) rows k =
          ⟨Event.loadAttempt q ::
            Event.warn ("Could not find data from " ++ q ++ ": " ++ m) ::
              (runLoads f qs rows k).events,
            (runLoads f qs rows k).rows, (runLoads f qs rows k).successes,
            (runLoads f qs rows k).err⟩) ∧
      (f q = LoadOutcome.hardError m →
        runLoads f (q :: qs) rows k = ⟨[Event.loadAttempt q], rows, k, some m⟩)) := by
  have hsoft : ∀ q ∈ compile_data_file_paths args.locations s e,
      isHardOutcome (env.outcome q) = false := by
    intro q hq
    rcases hclass q hq with h | h <;>
      · rcases hout : env.outcome q with rws | m | m <;> rw [hout] at h <;>
          simp [isSuccessOutcome, isNotFoundOutcome, isHardOutcome] at h ⊢
  obtain ⟨_, h2, h3, _⟩ := runLoads_soft env.outcome
    (compile_data_file_paths args.locations s e)
    ((monthSeq s e).foldl deleteOneMonth env.initialRows) 0 hsoft
  rw [extract_data_manual env args s e hinc hs he,
    runJob_manual_soft env args s e [] hinc hsoft]
  refine ⟨rfl,
    ⟨countRecords (runLoads env.outcome (compile_data_file_paths args.locations s e)
      ((monthSeq s e).foldl deleteOneMonth env.initialRows) 0).rows s e, by simp⟩,
    ?_, ?_, ?_, ?_⟩
  · rw [loadAttemptsOf_append, loadAttemptsOf_append, loadAttemptsOf_append, h2]
    rw [loadAttemptsOf_nil, loadAttemptsOf_cons_opened, loadAttemptsOf_map_deleteMonth,
      loadAttemptsOf_cons_completed, loadAttemptsOf_nil]
    simp
  · rw [warnsOf_append, warnsOf_append, warnsOf_append, h3]
    rw [warnsOf_nil, warnsOf_cons_opened, warnsOf_map_deleteMonth,
      warnsOf_cons_completed, warnsOf_nil]
    omega
  · rw [warnsOf_append, warnsOf_append, warnsOf_append, h3]
    obtain ⟨q, hq, hqnf⟩ := hnf
    have hpos : 0 < List.countP (fun q => isNotFoundOutcome (env.outcome q))
        (compile_data_file_paths args.locations s e) :=
      List.countP_pos_iff.mpr ⟨q, hq, hqnf⟩
    omega
  · intro f q qs rows k m
    exact ⟨fun h => runLoads_step_notFound f q qs rows k m h,
      fun h => runLoads_step_hard f q qs rows k m h⟩

/-- C4 witness: two months for one location, the first missing at the
source and the second succeeding: the job completes with both locators
attempted and one warning. -/
theorem not_found_partitions_tolerated_witness :
    (extract_data
      { nextId := 1,
        outcome := fun q =>
          if q = "locationid=A/year=2024/month=01/*" then LoadOutcome.notFound "404"
          else LoadOutcome.success [⟨2024, "02"⟩],
        ledgerRead := .ok none, now := ⟨24292, 5⟩, initialRows := [] }
      { incremental := false, start_date := some 24288, end_date := some 24289,
        locations := ["A"] }).result = Except.ok () ∧
    (∃ v, Event.jobCompleted 1 v ∈
      (extract_data
        { nextId := 1,
          outcome := fun q =>
            if q = "locationid=A/year=2024/month=01/*" then LoadOutcome.notFound "404"
            else LoadOutcome.success [⟨2024, "02"⟩],
          ledgerRead := .ok none, now := ⟨24292, 5⟩, initialRows := [] }
        { incremental := false, start_date := some 24288, end_date := some 24289,
          locations := ["A"] }).events) ∧
    loadAttemptsOf
      (extract_data
        { nextId := 1,
          outcome := fun q =>
            if q = "locationid=A/year=2024/month=01/*" then LoadOutcome.notFound "404"
            else LoadOutcome.success [⟨2024, "02"⟩],
          ledgerRead := .ok none, now := ⟨24292, 5⟩, initialRows := [] }
        { incremental := false, start_date := some 24288, end_date := some 24289,
          locations := ["A"] }).events =
      compile_data_file_paths ["A"] 24288 24289 ∧
    warnsOf
      (extract_data
        { nextId := 1,
          outcome := fun q =>
            if q = "locationid=A/year=2024/month=01/*" then LoadOutcome.notFound "404"
            else LoadOutcome.success [⟨2024, "02"⟩],
          ledgerRead := .ok none, now := ⟨24292, 5⟩, initialRows := [] }
        { incremental := false, start_date := some 24288, end_date := some 24289,
          locations := ["A"] }).events = 1 := by
  obtain ⟨r1, r2, r3, r4, _, _⟩ := not_found_partitions_tolerated
    { nextId := 1,
      outcome := fun q =>
        if q = "locationid=A/year=2024/month=01/*" then LoadOutcome.notFound "404"
        else LoadOutcome.success [⟨2024, "02"⟩],
      ledgerRead := .ok none, now := ⟨24292, 5⟩, initialRows := [] }
    { incremental := false, start_date := some 24288, end_date := some 24289,
      locations := ["A"] } 24288 24289 rfl rfl rfl (by decide)
    ⟨"locationid=A/year=2024/month=01/*", by decide, by decide⟩
  refine ⟨r1, r2, r3, ?_⟩
  rw [r4]
  decide

/-- C9: for every manual run that completes, the records value written
by the completing transition is exactly the post-loop row-count query
`countRecords` over the final table state restricted to the resolved
range; a concrete run in the last conjunct loads one partition carrying
two rows, so the recorded value (2) differs from the per-partition
success counter (1), showing the counter is not what is recorded. -/
theorem records_extracted_requery (env : Env) (args : Args) (s e : Nat)
    (hinc : args.incremental = false) (hs : args.start_date = some s)
    (he : args.end_date = some e)
    (hsoft : ∀ q ∈ compile_data_file_paths args.locations s e,
      isHardOutcome (env.outcome q) = false) :
    Event.jobCompleted env.nextId
        (countRecords (extract_data env args).rows s e) ∈
      (extract_data env args).events ∧
    (extract_data env args).successes =
      (compile_data_file_paths args.locations s e).countP
        (fun q => isSuccessOutcome (env.outcome q)) ∧
    ((extract_data
        { nextId := 1, outcome := fun _ => LoadOutcome.success [⟨2024, "01"⟩, ⟨2024, "01"⟩],
          ledgerRead := .ok none, now := ⟨24292, 5⟩, initialRows := [] }
        { incremental := false, start_date := some 24288, end_date := some 24288,
          locations := ["A"] }).successes = 1 ∧
      Event.jobCompleted 1 2 ∈
        (extract_data
          { nextId := 1, outcome := fun _ => LoadOutcome.success [⟨2024, "01"⟩, ⟨2024, "01"⟩],
            ledgerRead := .ok none, now := ⟨24292, 5⟩, initialRows := [] }
          { incremental := false, start_date := some 24288, end_date := some 24288,
            locations := ["A"] }).events ∧
      (2 : Nat) ≠ 1) := by
  obtain ⟨_, _, _, h4⟩ := runLoads_soft env.outcome
    (compile_data_file_paths args.locations s e)
    ((monthSeq s e).foldl deleteOneMonth env.initialRows) 0 hsoft
  rw [extract_data_manual env args s e hinc hs he,
    runJob_manual_soft env args s e [] hinc hsoft]
  refine ⟨by simp, ?_, by decide, by decide, by decide⟩
  show (runLoads env.outcome (compile_data_file_paths args.locations s e)
    ((monthSeq s e).foldl deleteOneMonth env.initialRows) 0).successes = _
  rw [h4]
  omega

/-- C9 witness: instantiation of the general part on the same concrete
run as the inequality part. -/
theorem records_extracted_requery_witness :
    Event.jobCompleted 1
        (countRecords
          (extract_data
            { nextId := 1, outcome := fun _ => LoadOutcome.success [⟨2024, "01"⟩, ⟨2024, "01"⟩],
              ledgerRead := .ok none, now := ⟨24292, 5⟩, initialRows := [] }
            { incremental := false, start_date := some 24288, end_date := some 24288,
              locations := ["A"] }).rows 24288 24288) ∈
      (extract_data
        { nextId := 1, outcome := fun _ => LoadOutcome.success [⟨2024, "01"⟩, ⟨2024, "01"⟩],
          ledgerRead := .ok none, now := ⟨24292, 5⟩, initialRows := [] }
        { incremental := false, start_date := some 24288, end_date := some 24288,
          locations := ["A"] }).events :=
  (records_extracted_requery
    { nextId := 1, outcome := fun _ => LoadOutcome.success [⟨2024, "01"⟩, ⟨2024, "01"⟩],
      ledgerRead := .ok none, now := ⟨24292, 5⟩, initialRows := [] }
    { incremental := false, start_date := some 24288, end_date := some 24288,
      locations := ["A"] } 24288 24288 rfl rfl rfl (by decide)).1

/-- C5 (code bug witnessed): the up-to-date check compares
`strptime(last_end)` (midnight) with `now.replace(day=1)`, which keeps
the current time of day.  With the ledger's last successful end month
equal to the current month (2024-05) and the clock at 14:30, the run
does NOT short-circuit: it opens ledger job 7 for the empty range
2024-06..2024-05 and completes it, instead of exiting with no job.  At
exactly midnight the short-circuit does fire, isolating the time-of-day
dependence; with last end strictly beyond the current month it also
fires, as intended. -/
theorem incremental_up_to_date_check_bug :
    (extract_data
      { nextId := 7, outcome := fun _ => LoadOutcome.success [],
        ledgerRead := .ok (some 24292), now := ⟨24292, 52200000000⟩, initialRows := [] }
      { incremental := true, start_date := none, end_date := none,
        locations := ["A"] }).events =
      [Event.jobOpened 7 24293 24292, Event.jobCompleted 7 0] ∧
    (extract_data
      { nextId := 7, outcome := fun _ => LoadOutcome.success [],
        ledgerRead := .ok (some 24292), now := ⟨24292, 52200000000⟩, initialRows := [] }
      { incremental := true, start_date := none, end_date := none,
        locations := ["A"] }).result = Except.ok () ∧
    (extract_data
      { nextId := 7, outcome := fun _ => LoadOutcome.success [],
        ledgerRead := .ok (some 24292), now := ⟨24292, 0⟩, initialRows := [] }
      { incremental := true, start_date := none, end_date := none,
        locations := ["A"] }).events = [] ∧
    (extract_data
      { nextId := 7, outcome := fun _ => LoadOutcome.success [],
        ledgerRead := .ok (some 24293), now := ⟨24292, 52200000000⟩, initialRows := [] }
      { incremental := true, start_date := none, end_date := none,
        locations := ["A"] }).events = [] :=
  ⟨by decide, rfl, by decide, by decide⟩

/-- C6: incremental date-range resolution: when the ledger read yields a
prior end month the resolved range is (that month + 1, current month);
when it yields none the range is (current month − 3, current month); a
ledger read failure is logged as a warning, surfaces as `none`, and the
resolver still returns the same successful range as the "no prior run"
case — the failure is never propagated. -/
theorem incremental_range_resolution (r : LedgerReadResult) (now : NowClock) :
    (∀ d, r = .ok (some d) →
      determine_date_range r now true = .ok ((d + 1, now.month), [])) ∧
    (r = .ok none →
      determine_date_range r now true = .ok ((now.month - 3, now.month), [])) ∧
    (∀ m, r = .err m →
      (get_last_extraction_date r).1 = none ∧
      (get_last_extraction_date r).2 =
        [Event.warn ("Could not retrieve last extraction date: " ++ m)] ∧
      determine_date_range r now true =
        .ok ((now.month - 3, now.month),
          [Event.warn ("Could not retrieve last extraction date: " ++ m)])) := by
  refine ⟨?_, ?_, ?_⟩
  · rintro d rfl
    rfl
  · rintro rfl
    rfl
  · rintro m rfl
    exact ⟨rfl, rfl, rfl⟩

/-- C6 witness: the three cases instantiated at concrete ledger reads
with the current month 2024-05. -/
theorem incremental_range_resolution_witness :
    determine_date_range (.ok (some 24290)) ⟨24292, 5⟩ true =
      .ok ((24291, 24292), []) ∧
    determine_date_range (.ok none) ⟨24292, 5⟩ true =
      .ok ((24289, 24292), []) ∧
    determine_date_range (.err "db locked") ⟨24292, 5⟩ true =
      .ok ((24289, 24292),
        [Event.warn ("Could not retrieve last extraction date: " ++ "db locked")]) := by
  refine ⟨(incremental_range_resolution (.ok (some 24290)) ⟨24292, 5⟩).1 24290 rfl, ?_, ?_⟩
  · exact (incremental_range_resolution (.ok none) ⟨24292, 5⟩).2.1 rfl
  · exact ((incremental_range_resolution (.err "db locked") ⟨24292, 5⟩).2.2 "db locked" rfl).2.2

/-- C8: the compiled locator sequence enumerates locations in registry
order and, within each location, months ascending from start to end
inclusive in steps of one month; for locations ["A","B"] over
2024-01..2024-02 it is exactly the four claimed locators in order. -/
theorem deterministic_enumeration :
    (∀ (locs : List String) (s e : Nat),
      compile_data_file_paths locs s e =
        locs.flatMap (fun l =>
          (monthSeq s e).map (fun am => renderPath l (am / 12) (am % 12 + 1)))) ∧
    (∀ s e : Nat, monthSeq s e = (List.range (e + 1 - s)).map (fun i => s + i)) ∧
    compile_data_file_paths ["A", "B"] 24288 24289 =
      ["locationid=A/year=2024/month=01/*", "locationid=A/year=2024/month=02/*",
       "locationid=B/year=2024/month=01/*", "locationid=B/year=2024/month=02/*"] :=
  ⟨fun locs s e => compile_eq_bind locs s e, fun s e => monthSeq_eq_range s e, by decide⟩

/-- C10: every month number 1..12 is rendered by `pad2chars` (used by
both the partition path compiler via `renderPath` and the deletion
guard via `deleteOneMonth`) as exactly two zero-padded digits, and
consequently the lexicographic `year || '-' || month` comparison of the
completion row-count query selects a zero-padded row exactly when its
(year, month) lies inside the inclusive `"YYYY-MM"` bounds, for
four-digit years. -/
theorem zero_padded_month_lex (y m s e : Nat)
    (hy1 : 1000 ≤ y) (hy2 : y ≤ 9999) (hm1 : 1 ≤ m) (hm2 : m ≤ 12)
    (hs1 : 12000 ≤ s) (hs2 : s ≤ 119999) (he1 : 12000 ≤ e) (he2 : e ≤ 119999) :
    (pad2chars m).length = 2 ∧
    ((sqlLe (fmtChars s) (rowKey ⟨y, String.mk (pad2chars m)⟩) &&
        sqlLe (rowKey ⟨y, String.mk (pad2chars m)⟩) (fmtChars e)) = true ↔
      (s ≤ y * 12 + (m - 1) ∧ y * 12 + (m - 1) ≤ e)) := by
  constructor
  · exact pad2chars_length m (by omega)
  · rw [rowKey_eq_monthChars, fmtChars_eq_monthChars s, fmtChars_eq_monthChars e]
    rw [sqlLe_monthChars (s / 12) (s % 12 + 1) y m (by omega) (by omega) hy1 hy2
      (by omega) (by omega) hm1 hm2]
    rw [sqlLe_monthChars y m (e / 12) (e % 12 + 1) hy1 hy2 (by omega) (by omega)
      hm1 hm2 (by omega) (by omega)]
    have h1 : s / 12 * 12 + (s % 12 + 1) = s + 1 := by omega
    have h2 : e / 12 * 12 + (e % 12 + 1) = e + 1 := by omega
    rw [h1, h2]
    simp only [Bool.and_eq_true, decide_eq_true_eq]
    omega

/-- C10 witness: year 2024, month 5, bounds 2024-01..2024-05: the row
key "2024-05" is selected, and the padding is two digits. -/
theorem zero_padded_month_lex_witness :
    (pad2chars 5).length = 2 ∧
    ((sqlLe (fmtChars 24288) (rowKey ⟨2024, String.mk (pad2chars 5)⟩) &&
        sqlLe (rowKey ⟨2024, String.mk (pad2chars 5)⟩) (fmtChars 24292)) = true ↔
      (24288 ≤ 2024 * 12 + (5 - 1) ∧ 2024 * 12 + (5 - 1) ≤ 24292)) :=
  zero_padded_month_lex 2024 5 24288 24292 (by decide) (by decide) (by decide)
    (by decide) (by decide) (by decide) (by decide) (by decide)
